import Mathlib

/-!
Shallow embedding of `watchrarr.py` (HomeLabineer/WatchRARr), the archive
ingestion pipeline: the in-memory dedup store `extracted_files`, the
`WatcherEventHandler` event methods, the extraction routine `extract_rar`
and its member loop, the startup rescan `process_existing_rar_files`, the
JSON persistence pair `save_extracted_files` and `load_extracted_files`,
and the configuration merge `update_args_from_config`.

Python dicts keyed by strings are embedded as association lists, filesystem
and archive-reader effects are embedded as an explicit oracle (`FSEnv`)
plus an action trace, and uncaught Python exceptions are embedded as an
explicit exit kind.
-/

namespace WatchRarr

/-- The in-memory `extracted_files` dict of the script: archive path to the
recorded flag (the script only ever stores `True`). -/
abbrev Store := List (String × Bool)

/-- Dict key lookup, `extracted_files.get(k)` / `k in extracted_files`. -/
def storeLookup : Store → String → Option Bool
  | [], _ => none
  | (k, v) :: rest, key => if k = key then some v else storeLookup rest key

/-- Dict assignment `extracted_files[k] = v`: replaces the value in place if
the key is present, otherwise appends (Python insertion order). -/
def storeInsert : Store → String → Bool → Store
  | [], key, v => [(key, v)]
  | (k, w) :: rest, key, v =>
      if k = key then (k, v) :: rest else (k, w) :: storeInsert rest key v

/-- Tests whether a string begins with a slash (data-level so that the
kernel can evaluate it). -/
def slashFirst (s : String) : Bool :=
  match s.data with
  | [] => false
  | c :: _ => c = '/'

/-- Tests whether a string ends with a slash (data-level so that the kernel
can evaluate it). -/
def slashLast (s : String) : Bool :=
  match s.data.getLast? with
  | some c => c = '/'
  | none => false

/-- Embeds `os.path.join(a, b)` (posixpath): an absolute second component
replaces the first, otherwise the components are joined with a slash. -/
def os_path_join (a b : String) : String :=
  if slashFirst b then b
  else if a = "" then b
  else if slashLast a then a ++ b
  else a ++ "/" ++ b

/-- ASCII lowercasing of one character. -/
def lowerChar (c : Char) : Char :=
  if 65 ≤ c.toNat ∧ c.toNat ≤ 90 then Char.ofNat (c.toNat + 32) else c

/-- Embeds `str.lower()` (the paths handled by the script are ASCII). -/
def pyLower (s : String) : String := String.mk (s.data.map lowerChar)

/-- Embeds the extension half of `os.path.splitext(p)` (posixpath): the
suffix starting at the last dot of the basename, provided some character of
the basename strictly before that dot is not itself a dot (leading dots of
the basename never open an extension). -/
def splitext_ext (p : String) : String :=
  let cs := p.data
  let base := (cs.reverse.takeWhile (fun c => c ≠ '/')).reverse
  match base.reverse.findIdx? (fun c => c = '.') with
  | none => ""
  | some i =>
      let dotPos := base.length - 1 - i
      if (base.take dotPos).any (fun c => c ≠ '.') then
        String.mk (base.drop dotPos)
      else ""

/-- Embeds the class attribute
`rar_pattern = re.compile(r"\.rar$|\.r\d\d$|\.part\d+\.rar$")` applied via
`re.match` (anchored at the start; each alternative is anchored at the end
by `$`), so the whole input must be one of the three alternatives. -/
def rar_pattern_match (s : String) : Bool :=
  matchDotRar s.data || matchDotRnn s.data || matchDotPart s.data
where
  /-- Alternative `\.rar$`. -/
  matchDotRar (cs : List Char) : Bool := cs = ['.', 'r', 'a', 'r']
  /-- Alternative `\.r\d\d$`. -/
  matchDotRnn (cs : List Char) : Bool :=
    match cs with
    | ['.', 'r', a, b] => a.isDigit && b.isDigit
    | _ => false
  /-- Alternative `\.part\d+\.rar$`. -/
  matchDotPart (cs : List Char) : Bool :=
    match cs with
    | '.' :: 'p' :: 'a' :: 'r' :: 't' :: rest =>
        let n := rest.length
        decide (4 < n) && (rest.take (n - 4)).all Char.isDigit
          && rest.drop (n - 4) = ['.', 'r', 'a', 'r']
    | _ => false

/-- One entry of `rf.infolist()`: the member name and its flag bits. -/
structure RarEntry where
  filename : String
  flags : Nat
deriving DecidableEq, Repr

/-- The `rarfile.RAR_FIRST_VOLUME` flag bit (an abstract fixed bit; the
script only ever tests it with a bitwise and). -/
def RAR_FIRST_VOLUME : Nat := 1

/-- Embeds `WatcherEventHandler.is_first_volume` (lines 160-165): scans the
info list and reports whether some entry carries the first-volume flag. -/
def is_first_volume (infolist : List RarEntry) : Bool :=
  infolist.any (fun info => Nat.land info.flags RAR_FIRST_VOLUME ≠ 0)

/-- Oracle for the external world seen by one run of the handler: whether
`rarfile.RarFile(path)` opens (false embeds a raised and caught
`rarfile.Error`), the info list of an opened archive, and whether a member
write (temp-file open plus `rf.read` plus write) and a rename succeed. -/
structure FSEnv where
  openOk : String → Bool
  entries : String → List RarEntry
  writeOk : String → Bool
  renameOk : String → Bool

/-- Filesystem effects performed by the script, recorded as a trace. The
script contains no file deletion call, but the vocabulary includes one so
that its absence is a statement, not a typing accident. -/
inductive FSAction where
  /-- An archive container was opened successfully. -/
  | openArchive (path : String)
  /-- A member temp file was written in full and flushed (the `with` block
  closed without error). -/
  | writeTempFile (path : String)
  /-- A member temp file write failed partway (caught `OSError` or
  `rarfile.Error`); the temp path may hold a truncated artifact. -/
  | writeTempIncomplete (path : String)
  /-- `os.rename(src, dst)` succeeded. -/
  | renameFile (src dst : String)
  /-- A file was removed (never emitted by any embedded function). -/
  | deleteFile (path : String)
deriving DecidableEq, Repr

/-- How a call of `extract_rar` left the interpreter. -/
inductive ExitKind where
  /-- Returned at line 170: the path is already in `extracted_files`. -/
  | alreadyExtracted
  /-- Returned at line 175: the reader said the volume is not the first. -/
  | nonFirstVolume
  /-- Fell through to line 199 and returned normally. -/
  | normal
  /-- An uncaught Python exception of the given class propagated out. -/
  | raised (exnClass : String)
  /-- The handler method returned without invoking `extract_rar`. -/
  | ignored
deriving DecidableEq, Repr

/-- Result of one `extract_rar` call: the updated `extracted_files` dict,
the filesystem actions performed, and the way the call exited. -/
structure ExtractOutcome where
  extracted_files : Store
  actions : List FSAction
  exit : ExitKind
deriving DecidableEq, Repr

/-- Embeds the member loop of `WatcherEventHandler.extract_rar`
(lines 177-196): for each entry of `rf.infolist()`, write the decompressed
bytes to `os.path.join(target_dir, entry.filename + ".tmp")`, then rename
that temp path to `os.path.join(target_dir, entry.filename)`; a failed
write or a failed rename is logged and the loop continues with the next
entry. -/
def extract_members (env : FSEnv) (target_dir : String) : List RarEntry → List FSAction
  | [] => []
  | entry :: rest =>
      if env.writeOk (os_path_join target_dir (entry.filename ++ ".tmp")) then
        if env.renameOk (os_path_join target_dir entry.filename) then
          FSAction.writeTempFile (os_path_join target_dir (entry.filename ++ ".tmp"))
            :: FSAction.renameFile (os_path_join target_dir (entry.filename ++ ".tmp"))
                (os_path_join target_dir entry.filename)
            :: extract_members env target_dir rest
        else
          FSAction.writeTempFile (os_path_join target_dir (entry.filename ++ ".tmp"))
            :: extract_members env target_dir rest
      else
        FSAction.writeTempIncomplete (os_path_join target_dir (entry.filename ++ ".tmp"))
          :: extract_members env target_dir rest

/-- Embeds `WatcherEventHandler.extract_rar` (lines 167-199) as the source
executes. If the path is already a key of `extracted_files` the call
returns at once. Otherwise `rarfile.RarFile(path)` is attempted: a raised
`rarfile.Error` is caught at line 197 and the call still falls through to
line 199, which records `extracted_files[path] = True`. When the container
does open, line 173 evaluates the bare name `is_first_volume`; that name is
bound only as an attribute of the class `WatcherEventHandler` (a class body
is not an enclosing scope for its methods), so the interpreter raises
`NameError` there, which `except rarfile.Error` does not catch: the call
propagates the exception before reading any member and before line 199, so
the member loop `extract_members` is never reached on this path. -/
def extract_rar (env : FSEnv) (extracted_files : Store) (rar_file_path : String) :
    ExtractOutcome :=
  if (storeLookup extracted_files rar_file_path).isSome then
    { extracted_files := extracted_files, actions := [], exit := ExitKind.alreadyExtracted }
  else if env.openOk rar_file_path then
    { extracted_files := extracted_files
      actions := [FSAction.openArchive rar_file_path]
      exit := ExitKind.raised "NameError" }
  else
    { extracted_files := storeInsert extracted_files rar_file_path true
      actions := []
      exit := ExitKind.normal }

/-- A watchdog filesystem event as seen by `on_created`. -/
structure FsEvent where
  src_path : String
  is_directory : Bool
deriving DecidableEq, Repr

/-- The guard of `WatcherEventHandler.on_created` (lines 144-152): the
event is for a non-directory whose lowercased extension matches
`rar_pattern`. -/
def on_created_invokes (event : FsEvent) : Bool :=
  !event.is_directory && rar_pattern_match (splitext_ext (pyLower event.src_path))

/-- Embeds `WatcherEventHandler.on_created` (lines 144-152): a matching
creation event calls `self.extract_rar(event.src_path)` directly; any other
event only logs and returns. -/
def on_created (env : FSEnv) (extracted_files : Store) (event : FsEvent) : ExtractOutcome :=
  if on_created_invokes event then extract_rar env extracted_files event.src_path
  else { extracted_files := extracted_files, actions := [], exit := ExitKind.ignored }

/-- Coordinator-level steps, the vocabulary in which the ordering between
stability confirmation and extraction start is stated. The script has no
stability detector, so only the second constructor is ever emitted. -/
inductive CoordinatorStep where
  /-- A stability confirmation for the path completed. -/
  | stabilityConfirmed (path : String)
  /-- An extraction attempt for the path started. -/
  | extractionStarted (path : String)
deriving DecidableEq, Repr

/-- The coordinator-level step sequence that one `on_created` call
performs: a matching event starts extraction immediately and performs no
other step; a non-matching event performs no step. -/
def on_created_steps (event : FsEvent) : List CoordinatorStep :=
  if on_created_invokes event then [CoordinatorStep.extractionStarted event.src_path] else []

/-- One `(root, file)` pair produced by `os.walk` during the rescan. -/
structure WalkEntry where
  root : String
  file : String
deriving DecidableEq, Repr

/-- Result of `process_existing_rar_files`: the final dict, the actions of
the whole walk, and the class of an uncaught exception if one aborted the
walk. -/
structure RescanOutcome where
  extracted_files : Store
  actions : List FSAction
  raised : Option String
deriving DecidableEq, Repr

/-- Combines the outcome of one `extract_rar` call with the outcome of
the remainder of the walk: an uncaught exception aborts the walk there
(the remainder is discarded), otherwise the walk continues. -/
def stepRescan (o : ExtractOutcome) (r : RescanOutcome) : RescanOutcome :=
  match o.exit with
  | ExitKind.raised n =>
      { extracted_files := o.extracted_files, actions := o.actions, raised := some n }
  | _ =>
      { extracted_files := r.extracted_files
        actions := o.actions ++ r.actions
        raised := r.raised }

/-- Embeds `process_existing_rar_files` (lines 42-49): walk the tree, and
for every file whose lowercased extension matches `rar_pattern` call
`handler.extract_rar(os.path.join(root, file))`; an exception raised by a
call propagates and aborts the walk. -/
def process_existing_rar_files (env : FSEnv) :
    List WalkEntry → Store → RescanOutcome
  | [], store => { extracted_files := store, actions := [], raised := none }
  | e :: rest, store =>
      if rar_pattern_match (splitext_ext (pyLower e.file)) then
        stepRescan (extract_rar env store (os_path_join e.root e.file))
          (process_existing_rar_files env rest
            (extract_rar env store (os_path_join e.root e.file)).extracted_files)
      else process_existing_rar_files env rest store

/-- A YAML-loaded Python value as the validators inspect it. Numeric
literals of the config file are embedded exactly: `vint` is a Python
`int`, `vfloat` a finite `float` (decimal literals are rationals), and
`vother` stands for any value of a type the validators never accept
(lists, mappings, non-finite floats). Note that in Python `bool` is a
subclass of `int`, which `asPyInt` reflects. -/
inductive PyVal where
  | vbool (b : Bool)
  | vint (n : Int)
  | vfloat (q : Rat)
  | vstr (s : String)
  | vnone
  | vother
deriving DecidableEq, Repr

/-- Views a Python value as an `int` for `isinstance(x, int)` checks:
true/false count as 1/0 because `bool` subclasses `int`. -/
def asPyInt : PyVal → Option Int
  | PyVal.vbool b => some (if b then 1 else 0)
  | PyVal.vint n => some n
  | _ => none

/-- Views a Python value as a number for `isinstance(x, (int, float))`
checks, again counting `bool` as `int`. -/
def asPyNum : PyVal → Option Rat
  | PyVal.vbool b => some (if b then 1 else 0)
  | PyVal.vint n => some (n : Rat)
  | PyVal.vfloat q => some q
  | _ => none

/-- A parsed YAML config: the top-level mapping. -/
abbrev Config := List (String × PyVal)

/-- Key lookup in the config mapping. -/
def configLookup : Config → String → Option PyVal
  | [], _ => none
  | (k, v) :: rest, key => if k = key then some v else configLookup rest key

/-- Embeds `validate_path` (lines 51-55): returns `config["path"]`
unvalidated when the key is present, otherwise raises `ValueError`. -/
def validate_path (config : Config) : Except String PyVal :=
  match configLookup config "path" with
  | some v => Except.ok v
  | none => Except.error "Path must be specified"

/-- Embeds `validate_polling` (lines 57-62): a present non-bool raises
`ValueError`; an absent key validates to `None`. -/
def validate_polling (config : Config) : Except String (Option Bool) :=
  match configLookup config "polling" with
  | some (PyVal.vbool b) => Except.ok (some b)
  | some _ => Except.error "polling must be a boolean value"
  | none => Except.ok none

/-- Embeds `validate_interval` (lines 64-69): a present value must be an
`int` or `float` in (0, 300]. -/
def validate_interval (config : Config) : Except String (Option Rat) :=
  match configLookup config "interval" with
  | some v =>
      match asPyNum v with
      | some q =>
          if q ≤ 0 ∨ 300 < q then Except.error "interval out of range"
          else Except.ok (some q)
      | none => Except.error "interval must be a number"
  | none => Except.ok none

/-- Embeds `validate_log_file` (lines 71-76): a present value must be a
string. -/
def validate_log_file (config : Config) : Except String (Option String) :=
  match configLookup config "log_file" with
  | some (PyVal.vstr s) => Except.ok (some s)
  | some _ => Except.error "log_file must be a string"
  | none => Except.ok none

/-- Embeds `validate_debug` (lines 78-83): a present non-bool raises
`ValueError`; an absent key validates to `None`. -/
def validate_debug (config : Config) : Except String (Option Bool) :=
  match configLookup config "debug" with
  | some (PyVal.vbool b) => Except.ok (some b)
  | some _ => Except.error "debug must be a boolean value"
  | none => Except.ok none

/-- Embeds `validate_max_log_size` (lines 85-91): a present value must be
an `int` in [10, 100] and is scaled to bytes. -/
def validate_max_log_size (config : Config) : Except String (Option Int) :=
  match configLookup config "max_log_size" with
  | some v =>
      match asPyInt v with
      | some n =>
          if n < 10 ∨ 100 < n then Except.error "max_log_size out of range"
          else Except.ok (some (n * 1024 * 1024))
      | none => Except.error "max_log_size must be an integer"
  | none => Except.ok none

/-- Embeds `validate_log_backup_count` (lines 93-98): a present value must
be an `int` in [1, 100]. -/
def validate_log_backup_count (config : Config) : Except String (Option Int) :=
  match configLookup config "log_backup_count" with
  | some v =>
      match asPyInt v with
      | some n =>
          if n < 1 ∨ 100 < n then Except.error "log_backup_count out of range"
          else Except.ok (some n)
      | none => Except.error "log_backup_count must be an integer"
  | none => Except.ok none

/-- The fields of the argparse namespace that `update_args_from_config`
touches. -/
structure Args where
  path : PyVal
  polling : Bool
  interval : Rat
  log_file : String
  debug : Bool
  max_log_size : Int
  log_backup_count : Int
deriving DecidableEq, Repr

/-- The Python expression `v or a` where `v` is a validated bool-or-None:
`None` and `False` are falsy, so only a validated `True` replaces the
command-line value. -/
def pyOrBool (v : Option Bool) (a : Bool) : Bool :=
  match v with
  | some true => true
  | some false => a
  | none => a

/-- The Python expression `v or a` for a validated number-or-None: the
validated number is positive, hence truthy, so it wins when present. -/
def pyOrNum (v : Option Rat) (a : Rat) : Rat :=
  match v with
  | some q => if q = 0 then a else q
  | none => a

/-- The Python expression `v or a` for a validated string-or-None: the
empty string is falsy. -/
def pyOrStr (v : Option String) (a : String) : String :=
  match v with
  | some s => if s = "" then a else s
  | none => a

/-- The Python expression `v or a` for a validated int-or-None. -/
def pyOrInt (v : Option Int) (a : Int) : Int :=
  match v with
  | some n => if n = 0 then a else n
  | none => a

/-- Embeds the merge block of `update_args_from_config` (lines 117-123)
for a present, parsed, non-empty config file: each field is validated and
merged with the Python `or` fallback, in source order; a `ValueError` from
any validator is caught and turns into `sys.exit(1)`, embedded as the
error case. -/
def update_args_from_config (args : Args) (config : Config) : Except String Args :=
  match validate_path config with
  | Except.error e => Except.error e
  | Except.ok path =>
  match validate_polling config with
  | Except.error e => Except.error e
  | Except.ok pol =>
  match validate_interval config with
  | Except.error e => Except.error e
  | Except.ok itv =>
  match validate_log_file config with
  | Except.error e => Except.error e
  | Except.ok lf =>
  match validate_debug config with
  | Except.error e => Except.error e
  | Except.ok dbg =>
  match validate_max_log_size config with
  | Except.error e => Except.error e
  | Except.ok mls =>
  match validate_log_backup_count config with
  | Except.error e => Except.error e
  | Except.ok lbc =>
  Except.ok
    { path := path
      polling := pyOrBool pol args.polling
      interval := pyOrNum itv args.interval
      log_file := pyOrStr lf args.log_file
      debug := pyOrBool dbg args.debug
      max_log_size := pyOrInt mls args.max_log_size
      log_backup_count := pyOrInt lbc args.log_backup_count }

/-- Lowercase hex digit for one nibble, as CPython json emits it. -/
def hexDigitChar (n : Nat) : Char :=
  if n < 10 then Char.ofNat (48 + n) else Char.ofNat (87 + n)

/-- The six characters of one JSON `\uXXXX` escape for a code unit. -/
def uEsc4 (n : Nat) : List Char :=
  ['\\', 'u', hexDigitChar (n / 4096 % 16), hexDigitChar (n / 256 % 16),
    hexDigitChar (n / 16 % 16), hexDigitChar (n % 16)]

/-- Embeds the per-character encoding of `json.dump` with its default
`ensure_ascii=True`: quote and backslash get two-character escapes, the
five named control characters get their short escapes, every other
character outside printable ASCII becomes `\uXXXX` (a surrogate pair for
code points above the basic plane), and printable ASCII passes through. -/
def escapeChar (c : Char) : List Char :=
  if c = '\"' then ['\\', '\"']
  else if c = '\\' then ['\\', '\\']
  else if c.toNat = 8 then ['\\', 'b']
  else if c.toNat = 9 then ['\\', 't']
  else if c.toNat = 10 then ['\\', 'n']
  else if c.toNat = 12 then ['\\', 'f']
  else if c.toNat = 13 then ['\\', 'r']
  else if c.toNat < 32 ∨ 126 < c.toNat then
    if c.toNat < 65536 then uEsc4 c.toNat
    else uEsc4 (55296 + (c.toNat - 65536) / 1024) ++ uEsc4 (56320 + (c.toNat - 65536) % 1024)
  else [c]

/-- A JSON string literal for one dict key. -/
def dumpStringChars (s : String) : List Char :=
  '\"' :: (s.data.flatMap escapeChar ++ ['\"'])

/-- The JSON spelling of a Python bool. -/
def dumpBool : Bool → List Char
  | true => ['t', 'r', 'u', 'e']
  | false => ['f', 'a', 'l', 's', 'e']

/-- The comma-separated members of the dumped dict, with the default
`json.dump` separators (a space after each colon and comma). -/
def dumpPairs : List (String × Bool) → List Char
  | [] => []
  | [(k, v)] => dumpStringChars k ++ ':' :: ' ' :: dumpBool v
  | (k, v) :: rest => dumpStringChars k ++ ':' :: ' ' :: (dumpBool v ++ ',' :: ' ' :: dumpPairs rest)

/-- Embeds `save_extracted_files` (lines 38-40): the file contents that
`json.dump(extracted_files, f)` writes for the dict. -/
def save_extracted_files (extracted_files : Store) : List Char :=
  '\x7b' :: (dumpPairs extracted_files ++ ['\x7d'])

/-- Value of one hex digit, upper or lower case. -/
def hexVal (c : Char) : Option Nat :=
  if 48 ≤ c.toNat ∧ c.toNat ≤ 57 then some (c.toNat - 48)
  else if 97 ≤ c.toNat ∧ c.toNat ≤ 102 then some (c.toNat - 87)
  else if 65 ≤ c.toNat ∧ c.toNat ≤ 70 then some (c.toNat - 55)
  else none

/-- Decodes the four hex digits of one `\uXXXX` escape, handling a
surrogate pair by consuming a second escape (a decoded lone surrogate is
rejected, since it is not a scalar value). Returns the decoded character
and the remaining input. -/
def decodeU : List Char → Option (Char × List Char)
  | a :: b :: c2 :: d :: rest3 =>
      match hexVal a, hexVal b, hexVal c2, hexVal d with
      | some ha, some hb, some hc, some hd =>
          let n := 4096 * ha + 256 * hb + 16 * hc + hd
          if 55296 ≤ n ∧ n ≤ 56319 then
            match rest3 with
            | x :: y :: a2 :: b2 :: c3 :: d2 :: rest4 =>
                if x = '\\' ∧ y = 'u' then
                  match hexVal a2, hexVal b2, hexVal c3, hexVal d2 with
                  | some he, some hf, some hg, some hh =>
                      let m := 4096 * he + 256 * hf + 16 * hg + hh
                      if 56320 ≤ m ∧ m ≤ 57343 then
                        some (Char.ofNat (65536 + (n - 55296) * 1024 + (m - 56320)), rest4)
                      else none
                  | _, _, _, _ => none
                else none
            | _ => none
          else if 56320 ≤ n ∧ n ≤ 57343 then none
          else some (Char.ofNat n, rest3)
      | _, _, _, _ => none
  | _ => none

/-- Decodes the JSON string escape that follows a backslash: the short
escapes, or a `\uXXXX` escape via `decodeU`. -/
def decodeEsc : List Char → Option (Char × List Char)
  | [] => none
  | e :: rest2 =>
      if e = '\x22' then some ('\x22', rest2)
      else if e = '\\' then some ('\\', rest2)
      else if e = '/' then some ('/', rest2)
      else if e = 'b' then some (Char.ofNat 8, rest2)
      else if e = 't' then some (Char.ofNat 9, rest2)
      else if e = 'n' then some (Char.ofNat 10, rest2)
      else if e = 'f' then some (Char.ofNat 12, rest2)
      else if e = 'r' then some (Char.ofNat 13, rest2)
      else if e = 'u' then decodeU rest2
      else none

/-- Embeds the string scanner of `json.load` restricted to decoded
characters Lean can hold: reads characters after an opening quote up to
the closing quote, decoding backslash escapes. The fuel argument is a
termination device only; every step consumes at least one input
character, so any fuel of at least the input length behaves like the
unbounded scanner. Returns the decoded characters and the input after
the closing quote. -/
def parseStringBodyF : Nat → List Char → Option (List Char × List Char)
  | 0, _ => none
  | Nat.succ fuel, cs =>
      match cs with
      | [] => none
      | c :: rest =>
          if c = '\x22' then some ([], rest)
          else if c = '\\' then
            match decodeEsc rest with
            | some (ch, rest2) => (fun p => (ch :: p.1, p.2)) <$> parseStringBodyF fuel rest2
            | none => none
          else (fun p => (c :: p.1, p.2)) <$> parseStringBodyF fuel rest

/-- The JSON literals `true` and `false`. -/
def parseBool : List Char → Option (Bool × List Char)
  | 't' :: 'r' :: 'u' :: 'e' :: rest => some (true, rest)
  | 'f' :: 'a' :: 'l' :: 's' :: 'e' :: rest => some (false, rest)
  | _ => none

/-- Continuation of the object-member scanner after a key has been read:
expects the canonical separator emitted by `json.dump` (a colon and one
space), a boolean, and then either a comma-space and further members
(handled by `next`) or the closing brace. -/
def parsePairsCont (next : List Char → Option (Store × List Char)) (key : List Char) :
    List Char → Option (Store × List Char)
  | ':' :: ' ' :: cs3 =>
      match parseBool cs3 with
      | some (b, cs4) =>
          match cs4 with
          | ',' :: ' ' :: cs5 =>
              match next cs5 with
              | some (rest, cs6) => some ((String.mk key, b) :: rest, cs6)
              | none => none
          | '\x7d' :: cs5 => some ([(String.mk key, b)], cs5)
          | _ => none
      | none => none
  | _ => none

/-- Embeds the object-member loop of `json.load` for an object whose
values are booleans, specialized to the canonical separators `json.dump`
emits (a space after each colon and comma, no other whitespace), which is
exactly what the files written by `save_extracted_files` contain. The
fuel argument only bounds the number of members; any fuel of at least
the member count behaves like the unbounded scanner. -/
def parsePairsFuel : Nat → List Char → Option (Store × List Char)
  | 0, _ => none
  | Nat.succ fuel, cs =>
      match cs with
      | '\x22' :: cs1 =>
          match parseStringBodyF (cs1.length + 1) cs1 with
          | some (key, cs2) => parsePairsCont (parsePairsFuel fuel) key cs2
          | none => none
      | _ => none

/-- Embeds `load_extracted_files` (lines 25-36) composed with `json.load`
on the relevant JSON fragment: a missing file yields the empty dict, a
present file is parsed as an object of booleans with nothing but the end
of the file after it; `none` embeds a raised `JSONDecodeError`. -/
def load_extracted_files (contents : Option (List Char)) : Option Store :=
  match contents with
  | none => some []
  | some cs =>
      match cs with
      | '\x7b' :: cs1 =>
          match cs1 with
          | '\x7d' :: cs2 =>
              match cs2 with
              | [] => some []
              | _ => none
          | _ =>
              match parsePairsFuel (cs1.length + 1) cs1 with
              | some (m, cs2) =>
                  match cs2 with
                  | [] => some m
                  | _ => none
              | none => none
      | _ => none

example : rar_pattern_match ".rar" = true := by decide
example : rar_pattern_match ".r00" = true := by decide
example : rar_pattern_match ".part1.rar" = true := by decide
example : rar_pattern_match ".tmp" = false := by decide
example : rar_pattern_match "rar" = false := by decide
example : splitext_ext "show.part1.rar" = ".rar" := by decide
example : splitext_ext "/w/a/movie.rar" = ".rar" := by decide
example : splitext_ext "...rar" = "" := by decide
example : splitext_ext "archive" = "" := by decide
example : os_path_join "d" "x.tmp" = "d/x.tmp" := by decide
example : os_path_join "d" "/evil" = "/evil" := by decide
example :
    load_extracted_files (some (save_extracted_files [("/w/a.rar", true)]))
      = some [("/w/a.rar", true)] := by decide
example :
    load_extracted_files (some (save_extracted_files [("a \"b\" \\ c", true), ("x", false)]))
      = some [("a \"b\" \\ c", true), ("x", false)] := by decide
example : load_extracted_files (some (save_extracted_files [])) = some [] := by decide
example : load_extracted_files none = some [] := by decide

/-- String-level directory containment: `p` lies under directory `dir`
when `p` begins with `dir` followed by a slash. -/
def underDir (dir p : String) : Bool :=
  (dir ++ "/").data.isPrefixOf p.data

/-! Concrete sample inputs used by the claim statements and witnesses. -/

/-- Sample oracle for witnesses: every container opens, one plain member,
every write and rename succeeds. -/
def envOpen : FSEnv where
  openOk := fun _ => true
  entries := fun _ => [{ filename := "video.mkv", flags := 0 }]
  writeOk := fun _ => true
  renameOk := fun _ => true

/-- Sample oracle for witnesses: no container opens (a raised and caught
`rarfile.Error` on every open). -/
def envBroken : FSEnv where
  openOk := fun _ => false
  entries := fun _ => []
  writeOk := fun _ => true
  renameOk := fun _ => true

/-- The eligibility rule as the specification words it (spec section 4.4),
stated over a record carrying a stored modification time: eligible iff no
record exists or the current modification time is strictly newer. This
definition follows the spec, for comparison with the code. -/
def spec_dedup_eligible : Option Nat → Nat → Bool
  | none, _ => true
  | some recorded, current => decide (recorded < current)

/-- Concrete creation event for the C3 statements. -/
def evC3 : FsEvent := { src_path := "/w/new.rar", is_directory := false }

/-- Oracle for the C4 statement: the container opens and the reader
reports that no entry carries the first-volume flag. -/
def envC4 : FSEnv where
  openOk := fun _ => true
  entries := fun _ => [{ filename := "video.mkv", flags := 0 }]
  writeOk := fun _ => true
  renameOk := fun _ => true

/-- Concrete config and args for the C10 witness: the config sets
`polling: false` while the command line set `--polling` and `--debug`. -/
def cfgC10 : Config := [("path", PyVal.vstr "/watch"), ("polling", PyVal.vbool false)]

/-- Command-line args for the C10 witness. -/
def argsC10 : Args :=
  { path := PyVal.vnone, polling := true, interval := 5, log_file := "watchrarr.log"
    debug := true, max_log_size := 10, log_backup_count := 9 }

/-- Merged args for the C10 witness. -/
def argsC10r : Args :=
  { path := PyVal.vstr "/watch", polling := true, interval := 5, log_file := "watchrarr.log"
    debug := true, max_log_size := 10, log_backup_count := 9 }


/-! Helper lemmas about the dict operations and `extract_rar`. -/

theorem storeLookup_insert_self (s : Store) (k : String) (v : Bool) :
    storeLookup (storeInsert s k v) k = some v := by
  induction s with
  | nil => simp [storeInsert, storeLookup]
  | cons hd tl ih =>
      obtain ⟨k2, v2⟩ := hd
      by_cases h : k2 = k <;> simp [storeInsert, storeLookup, h, ih]

theorem storeLookup_insert_ne (s : Store) (q k : String) (v : Bool) (h : q ≠ k) :
    storeLookup (storeInsert s q v) k = storeLookup s k := by
  induction s with
  | nil => simp [storeInsert, storeLookup, h]
  | cons hd tl ih =>
      obtain ⟨k2, v2⟩ := hd
      by_cases h2 : k2 = q <;> simp [storeInsert, storeLookup, h2, ih]
      · subst h2; simp [storeLookup, h]

theorem extract_rar_of_recorded (env : FSEnv) (s : Store) (p : String) (v : Bool)
    (h : storeLookup s p = some v) :
    extract_rar env s p
      = { extracted_files := s, actions := [], exit := ExitKind.alreadyExtracted } := by
  simp [extract_rar, h]

theorem extract_rar_actions_shape (env : FSEnv) (s : Store) (p : String) :
    ∀ a ∈ (extract_rar env s p).actions, a = FSAction.openArchive p := by
  unfold extract_rar
  split_ifs <;> simp

theorem extract_rar_store_shape (env : FSEnv) (s : Store) (p : String) :
    (extract_rar env s p).extracted_files = s
    ∨ (extract_rar env s p).extracted_files = storeInsert s p true := by
  unfold extract_rar
  split_ifs <;> simp

/-! Claim C1. -/

/-- C1 counterexample: the spec rule classifies an archive with a record
of modification time 5 and current modification time 10 as eligible, but
the code skips any path with a record: `extract_rar` takes no modification
time at all, its store holds none, and with the path recorded it exits at
the dedup gate doing no work, whatever the current modification time is. -/
theorem C1_counterexample :
    spec_dedup_eligible (some 5) 10 = true
    ∧ (extract_rar envOpen [("/w/a.rar", true)] "/w/a.rar").exit = ExitKind.alreadyExtracted
    ∧ (extract_rar envOpen [("/w/a.rar", true)] "/w/a.rar").actions = [] := by
  exact ⟨by decide, rfl, rfl⟩

/-- C1 amended: the dedup decision of `extract_rar` is: the archive is
classified already-processed (exit at the gate, with the store unchanged
and no filesystem action) iff a record exists for the exact path string;
the store records no modification times and the decision never consults
one. -/
theorem C1_amended (env : FSEnv) (store : Store) (p : String) :
    ((extract_rar env store p).exit = ExitKind.alreadyExtracted
        ↔ (storeLookup store p).isSome = true)
    ∧ ((storeLookup store p).isSome = true →
        extract_rar env store p
          = { extracted_files := store, actions := [], exit := ExitKind.alreadyExtracted }) := by
  constructor
  · unfold extract_rar
    split_ifs with h1 h2 <;> simp_all
  · intro h
    simp [extract_rar, h]

/-- C1 amended witness at a concrete input. -/
theorem C1_amended_witness :
    (storeLookup [("/w/a.rar", true)] "/w/a.rar").isSome = true
    ∧ extract_rar envBroken [("/w/a.rar", true)] "/w/a.rar"
        = { extracted_files := [("/w/a.rar", true)], actions := []
            exit := ExitKind.alreadyExtracted } :=
  ⟨by decide, (C1_amended envBroken [("/w/a.rar", true)] "/w/a.rar").2 (by decide)⟩

/-! Claim C2. -/

/-- C2 counterexample: an archive whose container cannot be opened (a
raised `rarfile.Error`, the "container cannot be opened" case of the
claim) is nevertheless written into the store by line 199, and a
subsequent discovery of the same path is skipped at the dedup gate rather
than reprocessed. -/
theorem C2_counterexample :
    (extract_rar envBroken [] "/w/b.rar").extracted_files = [("/w/b.rar", true)]
    ∧ (extract_rar envBroken [] "/w/b.rar").exit = ExitKind.normal
    ∧ (extract_rar envBroken [("/w/b.rar", true)] "/w/b.rar").exit = ExitKind.alreadyExtracted
    ∧ (extract_rar envBroken [("/w/b.rar", true)] "/w/b.rar").actions = [] := by
  exact ⟨rfl, rfl, rfl, rfl⟩

/-- C2 amended: when the container of an unrecorded path cannot be opened,
`extract_rar` still returns normally and records the path as processed,
and a subsequent discovery of the same path does no work (no retry). The
member-failure cases of the original claim are unreachable: whenever the
container does open, the call raises `NameError` before the member loop
(see the claim about the first-volume query). -/
theorem C2_amended (env : FSEnv) (store : Store) (p : String)
    (h1 : storeLookup store p = none) (h2 : env.openOk p = false) :
    extract_rar env store p
      = { extracted_files := storeInsert store p true, actions := [], exit := ExitKind.normal }
    ∧ (extract_rar env (storeInsert store p true) p).exit = ExitKind.alreadyExtracted := by
  constructor
  · simp [extract_rar, h1, h2]
  · simp [extract_rar, storeLookup_insert_self]

/-- C2 amended witness at a concrete input. -/
theorem C2_amended_witness :
    storeLookup [] "/w/b.rar" = none
    ∧ envBroken.openOk "/w/b.rar" = false
    ∧ (extract_rar envBroken [] "/w/b.rar"
        = { extracted_files := [("/w/b.rar", true)], actions := [], exit := ExitKind.normal }
      ∧ (extract_rar envBroken [("/w/b.rar", true)] "/w/b.rar").exit
          = ExitKind.alreadyExtracted) :=
  ⟨by decide, by decide, C2_amended envBroken [] "/w/b.rar" (by decide) (by decide)⟩

/-! Claim C3. -/

/-- C3 counterexample: a creation event for a matching path triggers
extraction directly (the extraction start appears in the step sequence
and real work is performed against the filesystem), and no stability
confirmation for the path occurs anywhere: the program has no stability
detector. -/
theorem C3_counterexample :
    CoordinatorStep.extractionStarted "/w/new.rar" ∈ on_created_steps evC3
    ∧ CoordinatorStep.stabilityConfirmed "/w/new.rar" ∉ on_created_steps evC3
    ∧ (on_created envOpen [] evC3).actions = [FSAction.openArchive "/w/new.rar"] := by
  exact ⟨by decide, by decide, rfl⟩

/-- C3 amended: a creation event for a non-directory path whose lowercased
extension matches the RAR pattern invokes `extract_rar` on the path
immediately; the only coordinator step performed is the extraction start,
and no stability confirmation step exists for any path. -/
theorem C3_amended (env : FSEnv) (store : Store) (event : FsEvent)
    (h : on_created_invokes event = true) :
    on_created env store event = extract_rar env store event.src_path
    ∧ on_created_steps event = [CoordinatorStep.extractionStarted event.src_path]
    ∧ ∀ p, CoordinatorStep.stabilityConfirmed p ∉ on_created_steps event := by
  refine ⟨by simp [on_created, h], by simp [on_created_steps, h], ?_⟩
  intro p
  simp [on_created_steps, h]

/-- C3 amended witness at a concrete input. -/
theorem C3_amended_witness :
    on_created_invokes evC3 = true
    ∧ on_created envBroken [] evC3 = extract_rar envBroken [] "/w/new.rar"
    ∧ on_created_steps evC3 = [CoordinatorStep.extractionStarted "/w/new.rar"] :=
  ⟨by decide, (C3_amended envBroken [] evC3 (by decide)).1,
    (C3_amended envBroken [] evC3 (by decide)).2.1⟩

/-! Claim C4. -/

/-- C4 code bug, evaluated at the failing input: the reader can open the
container and would report the volume is not first (`is_first_volume` of
its info list is false), so the claim expects the marker to be queried and
the call to return cleanly; instead `extract_rar` raises an uncaught
`NameError` at line 173, because the bare name `is_first_volume` is only
bound as a class attribute and is not in scope inside the method. The
graceful non-first-volume exit is unreachable. -/
theorem C4_code_bug :
    is_first_volume (envC4.entries "/w/c.part2.rar") = false
    ∧ extract_rar envC4 [] "/w/c.part2.rar"
        = { extracted_files := [], actions := [FSAction.openArchive "/w/c.part2.rar"]
            exit := ExitKind.raised "NameError" } := by
  exact ⟨by decide, rfl⟩

/-! Claim C9. -/

/-- C9: a call of `extract_rar` on a path not yet in the store that
returns normally (neither early-exit branch, no uncaught exception)
records the path as `True`, and a second call on the same path is then
skipped at the dedup gate with no work, while that record persists. The
container-open-failure case is the reachable instance; read errors and
member write failures cannot produce a normal return in the code as
written, since an opened container raises `NameError` first. -/
theorem C9_theorem (env : FSEnv) (store : Store) (p : String)
    (h1 : storeLookup store p = none)
    (h2 : (extract_rar env store p).exit = ExitKind.normal) :
    storeLookup (extract_rar env store p).extracted_files p = some true
    ∧ extract_rar env (extract_rar env store p).extracted_files p
        = { extracted_files := (extract_rar env store p).extracted_files, actions := []
            exit := ExitKind.alreadyExtracted } := by
  by_cases ho : env.openOk p = true
  · exfalso
    simp [extract_rar, h1, ho] at h2
  · have hres : extract_rar env store p
        = { extracted_files := storeInsert store p true, actions := []
            exit := ExitKind.normal } := by
      simp [extract_rar, h1, ho]
    rw [hres]
    exact ⟨storeLookup_insert_self store p true,
      by simp [extract_rar, storeLookup_insert_self]⟩

/-- C9 witness at a concrete input (the container-open-failure case). -/
theorem C9_witness :
    storeLookup [] "/w/d.rar" = none
    ∧ (extract_rar envBroken [] "/w/d.rar").exit = ExitKind.normal
    ∧ (storeLookup (extract_rar envBroken [] "/w/d.rar").extracted_files "/w/d.rar" = some true
      ∧ extract_rar envBroken (extract_rar envBroken [] "/w/d.rar").extracted_files "/w/d.rar"
          = { extracted_files := (extract_rar envBroken [] "/w/d.rar").extracted_files
              actions := [], exit := ExitKind.alreadyExtracted }) :=
  ⟨by decide, by decide, C9_theorem envBroken [] "/w/d.rar" (by decide) (by decide)⟩

/-! Claim C10. -/

/-- C10: whenever the merge completes (no validator raised), a validated
polling or debug value that is falsy (absent key validating to `None`, or
a config value of `False`) never overrides the command-line value: the
merged field equals the command-line field, because the merge is the
Python `or` fallback. -/
theorem C10_theorem (args : Args) (config : Config) (args2 : Args)
    (h : update_args_from_config args config = Except.ok args2) :
    ((validate_polling config = Except.ok none
        ∨ validate_polling config = Except.ok (some false)) →
      args2.polling = args.polling)
    ∧ ((validate_debug config = Except.ok none
        ∨ validate_debug config = Except.ok (some false)) →
      args2.debug = args.debug) := by
  unfold update_args_from_config at h
  repeat' split at h
  any_goals exact Except.noConfusion h
  rename_i x1 path hpath x2 pol hpol x3 itv hitv x4 lf hlf x5 dbg hdbg x6 mls hmls x7 lbc hlbc
  injection h with h
  subst h
  constructor
  · rintro (hp | hp) <;> rw [hpol] at hp <;> injection hp with hpeq <;> subst hpeq <;> rfl
  · rintro (hd | hd) <;> rw [hdbg] at hd <;> injection hd with hdeq <;> subst hdeq <;> rfl

/-- C10 witness at a concrete input: config `polling: false` does not turn
off the command-line `--polling`, and the absent `debug` key leaves the
command-line `--debug` in force. -/
theorem C10_witness :
    update_args_from_config argsC10 cfgC10 = Except.ok argsC10r
    ∧ (validate_polling cfgC10 = Except.ok none
        ∨ validate_polling cfgC10 = Except.ok (some false))
    ∧ (validate_debug cfgC10 = Except.ok none
        ∨ validate_debug cfgC10 = Except.ok (some false))
    ∧ argsC10r.polling = argsC10.polling
    ∧ argsC10r.debug = argsC10.debug :=
  ⟨by rfl, Or.inr (by rfl), Or.inl (by rfl),
    (C10_theorem argsC10 cfgC10 argsC10r (by rfl)).1 (Or.inr (by rfl)),
    (C10_theorem argsC10 cfgC10 argsC10r (by rfl)).2 (Or.inl (by rfl))⟩

/-! Claim C5. -/

/-- C5: every rename the member loop performs moves the temporary sibling
path of some member (the joined member name plus the `.tmp` suffix) onto
the joined member name, the complete byte stream for that member was
written and flushed to the temporary path (`writeOk` of that path holds),
and the completed write precedes the rename in the action trace, so no
final member name is ever produced from anything but a completely written
temporary file. -/
theorem C5_theorem (env : FSEnv) (dir : String) (entries : List RarEntry) (s d : String)
    (h : FSAction.renameFile s d ∈ extract_members env dir entries) :
    ∃ e, e ∈ entries
      ∧ s = os_path_join dir (e.filename ++ ".tmp")
      ∧ d = os_path_join dir e.filename
      ∧ env.writeOk s = true
      ∧ ∃ pre suf, extract_members env dir entries
            = pre ++ FSAction.renameFile s d :: suf
          ∧ FSAction.writeTempFile s ∈ pre := by
  induction entries with
  | nil => simp [extract_members] at h
  | cons e rest ih =>
      by_cases hw : env.writeOk (os_path_join dir (e.filename ++ ".tmp")) = true
      · by_cases hr : env.renameOk (os_path_join dir e.filename) = true
        · rw [extract_members, if_pos hw, if_pos hr] at h
          simp only [List.mem_cons] at h
          rcases h with h | h | h
          · exact absurd h (by simp)
          · obtain ⟨hs, hd⟩ := FSAction.renameFile.inj h
            subst hs
            subst hd
            exact ⟨e, List.mem_cons_self e rest, rfl, rfl, hw,
              [FSAction.writeTempFile (os_path_join dir (e.filename ++ ".tmp"))],
              extract_members env dir rest,
              by rw [extract_members, if_pos hw, if_pos hr]; rfl, by simp⟩
          · obtain ⟨e2, hmem, hs, hd, hwk, pre, suf, heq, hpre⟩ := ih h
            refine ⟨e2, List.mem_cons_of_mem e hmem, hs, hd, hwk,
              FSAction.writeTempFile (os_path_join dir (e.filename ++ ".tmp"))
                :: FSAction.renameFile (os_path_join dir (e.filename ++ ".tmp"))
                    (os_path_join dir e.filename) :: pre,
              suf, ?_, by simp [hpre]⟩
            rw [extract_members, if_pos hw, if_pos hr, heq]
            rfl
        · rw [extract_members, if_pos hw, if_neg hr] at h
          simp only [List.mem_cons] at h
          rcases h with h | h
          · exact absurd h (by simp)
          · obtain ⟨e2, hmem, hs, hd, hwk, pre, suf, heq, hpre⟩ := ih h
            refine ⟨e2, List.mem_cons_of_mem e hmem, hs, hd, hwk,
              FSAction.writeTempFile (os_path_join dir (e.filename ++ ".tmp")) :: pre,
              suf, ?_, by simp [hpre]⟩
            rw [extract_members, if_pos hw, if_neg hr, heq]
            rfl
      · rw [extract_members, if_neg hw] at h
        simp only [List.mem_cons] at h
        rcases h with h | h
        · exact absurd h (by simp)
        · obtain ⟨e2, hmem, hs, hd, hwk, pre, suf, heq, hpre⟩ := ih h
          refine ⟨e2, List.mem_cons_of_mem e hmem, hs, hd, hwk,
            FSAction.writeTempIncomplete (os_path_join dir (e.filename ++ ".tmp")) :: pre,
            suf, ?_, by simp [hpre]⟩
          rw [extract_members, if_neg hw, heq]
          rfl

/-- C5 witness at a concrete input. -/
theorem C5_witness :
    FSAction.renameFile "d/video.mkv.tmp" "d/video.mkv"
        ∈ extract_members envOpen "d" [{ filename := "video.mkv", flags := 0 }]
    ∧ ∃ e, e ∈ [RarEntry.mk "video.mkv" 0]
      ∧ "d/video.mkv.tmp" = os_path_join "d" (e.filename ++ ".tmp")
      ∧ "d/video.mkv" = os_path_join "d" e.filename
      ∧ envOpen.writeOk "d/video.mkv.tmp" = true
      ∧ ∃ pre suf, extract_members envOpen "d" [RarEntry.mk "video.mkv" 0]
            = pre ++ FSAction.renameFile "d/video.mkv.tmp" "d/video.mkv" :: suf
          ∧ FSAction.writeTempFile "d/video.mkv.tmp" ∈ pre :=
  ⟨by decide,
    C5_theorem envOpen "d" [RarEntry.mk "video.mkv" 0] "d/video.mkv.tmp" "d/video.mkv"
      (by decide)⟩

/-! Claim C6. -/

/-- Membership in the actions of one rescan step comes from the
`extract_rar` call or from the remainder of the walk. -/
theorem stepRescan_actions_mem (o : ExtractOutcome) (r : RescanOutcome) (a : FSAction)
    (h : a ∈ (stepRescan o r).actions) : a ∈ o.actions ∨ a ∈ r.actions := by
  unfold stepRescan at h
  rcases hexit : o.exit with _ | _ | _ | n | _ <;> rw [hexit] at h <;> simp_all

/-- C6: a path already recorded in the store gets zero extraction work
from a full rescan: the whole rescan is unchanged if every walk entry
joining to that path is removed beforehand, and in particular its
container is never opened. -/
theorem C6_theorem (env : FSEnv) (store : Store) (p : String) (v : Bool)
    (files : List WalkEntry) (h : storeLookup store p = some v) :
    process_existing_rar_files env files store
      = process_existing_rar_files env
          (files.filter (fun e => os_path_join e.root e.file ≠ p)) store
    ∧ FSAction.openArchive p ∉ (process_existing_rar_files env files store).actions := by
  induction files generalizing store with
  | nil => simp [process_existing_rar_files]
  | cons e rest ih =>
      by_cases hm : rar_pattern_match (splitext_ext (pyLower e.file)) = true
      · by_cases hp : os_path_join e.root e.file = p
        · have hskip : extract_rar env store (os_path_join e.root e.file)
              = { extracted_files := store, actions := [], exit := ExitKind.alreadyExtracted } := by
            rw [hp]; exact extract_rar_of_recorded env store p v h
          have hstep : process_existing_rar_files env (e :: rest) store
              = process_existing_rar_files env rest store := by
            rw [process_existing_rar_files, if_pos hm, hskip]
            simp [stepRescan]
          have hfilt : (e :: rest).filter (fun e2 => os_path_join e2.root e2.file ≠ p)
              = rest.filter (fun e2 => os_path_join e2.root e2.file ≠ p) := by
            simp [List.filter, hp]
          rw [hstep, hfilt]
          exact ih store h
        · have hkeep : (e :: rest).filter (fun e2 => os_path_join e2.root e2.file ≠ p)
              = e :: rest.filter (fun e2 => os_path_join e2.root e2.file ≠ p) := by
            simp [List.filter, hp]
          have hpres : storeLookup
              (extract_rar env store (os_path_join e.root e.file)).extracted_files p
              = some v := by
            rcases extract_rar_store_shape env store (os_path_join e.root e.file) with hs | hs
            · rw [hs]; exact h
            · rw [hs, storeLookup_insert_ne store (os_path_join e.root e.file) p true hp]
              exact h
          obtain ⟨iheq, ihmem⟩ :=
            ih (extract_rar env store (os_path_join e.root e.file)).extracted_files hpres
          constructor
          · rw [hkeep, process_existing_rar_files, if_pos hm,
              process_existing_rar_files, if_pos hm, iheq]
          · rw [process_existing_rar_files, if_pos hm]
            intro hmem
            rcases stepRescan_actions_mem _ _ _ hmem with hin | hin
            · have := extract_rar_actions_shape env store (os_path_join e.root e.file) _ hin
              exact hp (FSAction.openArchive.inj this.symm)
            · exact ihmem hin
      · have hstep : process_existing_rar_files env (e :: rest) store
            = process_existing_rar_files env rest store := by
          rw [process_existing_rar_files, if_neg hm]
        rw [hstep]
        by_cases hp : os_path_join e.root e.file = p
        · have hfilt : (e :: rest).filter (fun e2 => os_path_join e2.root e2.file ≠ p)
              = rest.filter (fun e2 => os_path_join e2.root e2.file ≠ p) := by
            simp [List.filter, hp]
          rw [hfilt]
          exact ih store h
        · have hkeep : (e :: rest).filter (fun e2 => os_path_join e2.root e2.file ≠ p)
              = e :: rest.filter (fun e2 => os_path_join e2.root e2.file ≠ p) := by
            simp [List.filter, hp]
          have hstep2 : process_existing_rar_files env
              (e :: rest.filter (fun e2 => os_path_join e2.root e2.file ≠ p)) store
              = process_existing_rar_files env
                  (rest.filter (fun e2 => os_path_join e2.root e2.file ≠ p)) store := by
            rw [process_existing_rar_files, if_neg hm]
          rw [hkeep, hstep2]
          exact ih store h

/-- C6 witness at a concrete input. -/
theorem C6_witness :
    storeLookup [("r/a.rar", true)] "r/a.rar" = some true
    ∧ (process_existing_rar_files envBroken
          [WalkEntry.mk "r" "a.rar", WalkEntry.mk "r" "b.r00"] [("r/a.rar", true)]
        = process_existing_rar_files envBroken
            (([WalkEntry.mk "r" "a.rar", WalkEntry.mk "r" "b.r00"]).filter
              (fun e => os_path_join e.root e.file ≠ "r/a.rar")) [("r/a.rar", true)]
      ∧ FSAction.openArchive "r/a.rar"
          ∉ (process_existing_rar_files envBroken
              [WalkEntry.mk "r" "a.rar", WalkEntry.mk "r" "b.r00"]
              [("r/a.rar", true)]).actions) :=
  ⟨by decide,
    C6_theorem envBroken [("r/a.rar", true)] "r/a.rar" true
      [WalkEntry.mk "r" "a.rar", WalkEntry.mk "r" "b.r00"] (by decide)⟩

/-! Claim C8. -/

/-- Every action of the member loop concerns the member output paths of
some entry: the temporary path (complete or incomplete write) or the
rename of the temporary path onto the final path. -/
theorem extract_members_shape (env : FSEnv) (dir : String) (entries : List RarEntry) :
    ∀ a ∈ extract_members env dir entries, ∃ e, e ∈ entries
      ∧ (a = FSAction.writeTempFile (os_path_join dir (e.filename ++ ".tmp"))
        ∨ a = FSAction.writeTempIncomplete (os_path_join dir (e.filename ++ ".tmp"))
        ∨ a = FSAction.renameFile (os_path_join dir (e.filename ++ ".tmp"))
            (os_path_join dir e.filename)) := by
  induction entries with
  | nil => simp [extract_members]
  | cons e rest ih =>
      intro a ha
      by_cases hw : env.writeOk (os_path_join dir (e.filename ++ ".tmp")) = true
      · by_cases hr : env.renameOk (os_path_join dir e.filename) = true
        · rw [extract_members, if_pos hw, if_pos hr] at ha
          simp only [List.mem_cons] at ha
          rcases ha with ha | ha | ha
          · exact ⟨e, List.mem_cons_self e rest, Or.inl ha⟩
          · exact ⟨e, List.mem_cons_self e rest, Or.inr (Or.inr ha)⟩
          · obtain ⟨e2, hmem, hsh⟩ := ih a ha
            exact ⟨e2, List.mem_cons_of_mem e hmem, hsh⟩
        · rw [extract_members, if_pos hw, if_neg hr] at ha
          simp only [List.mem_cons] at ha
          rcases ha with ha | ha
          · exact ⟨e, List.mem_cons_self e rest, Or.inl ha⟩
          · obtain ⟨e2, hmem, hsh⟩ := ih a ha
            exact ⟨e2, List.mem_cons_of_mem e hmem, hsh⟩
      · rw [extract_members, if_neg hw] at ha
        simp only [List.mem_cons] at ha
        rcases ha with ha | ha
        · exact ⟨e, List.mem_cons_self e rest, Or.inr (Or.inl ha)⟩
        · obtain ⟨e2, hmem, hsh⟩ := ih a ha
          exact ⟨e2, List.mem_cons_of_mem e hmem, hsh⟩

/-- C8 counterexample: a member whose name is absolute makes the loop
write and rename outside the archive's target directory: with target
directory `d` and member name `/evil`, the temp write goes to `/evil.tmp`
and the rename to `/evil`, neither of which lies under `d`, because
`os.path.join` discards the first component when the second is absolute.
The claim's confinement to the target directory is false. -/
theorem C8_counterexample :
    extract_members envOpen "d" [{ filename := "/evil", flags := 0 }]
      = [FSAction.writeTempFile "/evil.tmp", FSAction.renameFile "/evil.tmp" "/evil"]
    ∧ underDir "d" "/evil.tmp" = false
    ∧ underDir "d" "/evil" = false :=
  ⟨rfl, by decide, by decide⟩

/-- C8 amended: the engine deletes nothing (neither the member loop nor
`extract_rar` ever emits a file deletion), and every action of the member
loop targets exactly the member output paths, the join of the target
directory with the member name plus `.tmp` or with the member name; such a
path can escape the target directory when a member name is absolute. -/
theorem C8_amended (env : FSEnv) (dir : String) (entries : List RarEntry)
    (store : Store) (p : String) :
    (∀ a ∈ extract_members env dir entries, ∀ q, a ≠ FSAction.deleteFile q)
    ∧ (∀ a ∈ extract_members env dir entries, ∃ e, e ∈ entries
        ∧ (a = FSAction.writeTempFile (os_path_join dir (e.filename ++ ".tmp"))
          ∨ a = FSAction.writeTempIncomplete (os_path_join dir (e.filename ++ ".tmp"))
          ∨ a = FSAction.renameFile (os_path_join dir (e.filename ++ ".tmp"))
              (os_path_join dir e.filename)))
    ∧ (∀ a ∈ (extract_rar env store p).actions, ∀ q, a ≠ FSAction.deleteFile q) := by
  refine ⟨?_, extract_members_shape env dir entries, ?_⟩
  · intro a ha q
    obtain ⟨e, _, hsh⟩ := extract_members_shape env dir entries a ha
    rcases hsh with h | h | h <;> subst h <;> simp
  · intro a ha q
    rw [extract_rar_actions_shape env store p a ha]
    simp

/-- C8 amended witness at a concrete input. -/
theorem C8_amended_witness :
    FSAction.writeTempFile "d/video.mkv.tmp"
        ∈ extract_members envOpen "d" [{ filename := "video.mkv", flags := 0 }]
    ∧ FSAction.writeTempFile "d/video.mkv.tmp" ≠ FSAction.deleteFile "d/video.mkv" :=
  ⟨by decide,
    (C8_amended envOpen "d" [{ filename := "video.mkv", flags := 0 }] [] "p").1
      _ (by decide) "d/video.mkv"⟩

/-! Claim C7: round trip of the persisted store. -/

theorem char_toNat_valid (c : Char) :
    c.toNat < 55296 ∨ (57343 < c.toNat ∧ c.toNat < 1114112) := by
  rcases c.valid with h | ⟨h1, h2⟩
  · exact Or.inl (UInt32.toNat_lt_of_lt (by decide) h)
  · exact Or.inr ⟨UInt32.lt_toNat_of_lt (by decide) h1, UInt32.toNat_lt_of_lt (by decide) h2⟩

theorem hexVal_hexDigitChar : ∀ n < 16, hexVal (hexDigitChar n) = some n := by decide

theorem decodeU_bmp (n : Nat) (hlt : n < 65536)
    (hsur : ¬ (55296 ≤ n ∧ n ≤ 57343)) (suffix : List Char) :
    decodeU (hexDigitChar (n / 4096 % 16) :: hexDigitChar (n / 256 % 16)
        :: hexDigitChar (n / 16 % 16) :: hexDigitChar (n % 16) :: suffix)
      = some (Char.ofNat n, suffix) := by
  have e1 := hexVal_hexDigitChar (n / 4096 % 16) (by omega)
  have e2 := hexVal_hexDigitChar (n / 256 % 16) (by omega)
  have e3 := hexVal_hexDigitChar (n / 16 % 16) (by omega)
  have e4 := hexVal_hexDigitChar (n % 16) (by omega)
  have hn : 4096 * (n / 4096 % 16) + 256 * (n / 256 % 16) + 16 * (n / 16 % 16) + n % 16
      = n := by omega
  rw [decodeU, e1, e2, e3, e4]
  simp only [hn]
  rw [if_neg (by omega), if_neg (by omega)]

theorem decodeU_pair (hi lo : Nat) (hhi1 : 55296 ≤ hi) (hhi2 : hi ≤ 56319)
    (hlo1 : 56320 ≤ lo) (hlo2 : lo ≤ 57343) (suffix : List Char) :
    decodeU (hexDigitChar (hi / 4096 % 16) :: hexDigitChar (hi / 256 % 16)
        :: hexDigitChar (hi / 16 % 16) :: hexDigitChar (hi % 16)
        :: '\\' :: 'u'
        :: hexDigitChar (lo / 4096 % 16) :: hexDigitChar (lo / 256 % 16)
        :: hexDigitChar (lo / 16 % 16) :: hexDigitChar (lo % 16) :: suffix)
      = some (Char.ofNat (65536 + (hi - 55296) * 1024 + (lo - 56320)), suffix) := by
  have e1 := hexVal_hexDigitChar (hi / 4096 % 16) (by omega)
  have e2 := hexVal_hexDigitChar (hi / 256 % 16) (by omega)
  have e3 := hexVal_hexDigitChar (hi / 16 % 16) (by omega)
  have e4 := hexVal_hexDigitChar (hi % 16) (by omega)
  have f1 := hexVal_hexDigitChar (lo / 4096 % 16) (by omega)
  have f2 := hexVal_hexDigitChar (lo / 256 % 16) (by omega)
  have f3 := hexVal_hexDigitChar (lo / 16 % 16) (by omega)
  have f4 := hexVal_hexDigitChar (lo % 16) (by omega)
  have hhn : 4096 * (hi / 4096 % 16) + 256 * (hi / 256 % 16) + 16 * (hi / 16 % 16) + hi % 16
      = hi := by omega
  have hln : 4096 * (lo / 4096 % 16) + 256 * (lo / 256 % 16) + 16 * (lo / 16 % 16) + lo % 16
      = lo := by omega
  rw [decodeU, e1, e2, e3, e4]
  simp only [hhn]
  rw [if_pos (And.intro hhi1 hhi2)]
  simp only [f1, f2, f3, f4, hln]
  rw [if_pos (And.intro trivial trivial), if_pos (And.intro hlo1 hlo2)]

theorem parseStringBodyF_quote (fuel : Nat) (rest : List Char) :
    parseStringBodyF (Nat.succ fuel) ('\x22' :: rest) = some ([], rest) := rfl

theorem parseStringBodyF_esc (fuel : Nat) (rest : List Char) :
    parseStringBodyF (Nat.succ fuel) ('\\' :: rest)
      = match decodeEsc rest with
        | some (ch, rest2) => (fun p => (ch :: p.1, p.2)) <$> parseStringBodyF fuel rest2
        | none => none := rfl

theorem parseStringBodyF_plain (fuel : Nat) (c : Char) (rest : List Char)
    (h1 : c ≠ '\x22') (h2 : c ≠ '\\') :
    parseStringBodyF (Nat.succ fuel) (c :: rest)
      = (fun p => (c :: p.1, p.2)) <$> parseStringBodyF fuel rest := by
  have he : parseStringBodyF (Nat.succ fuel) (c :: rest)
      = if c = '\x22' then some ([], rest)
        else if c = '\\' then
          match decodeEsc rest with
          | some (ch, rest2) => (fun p => (ch :: p.1, p.2)) <$> parseStringBodyF fuel rest2
          | none => none
        else (fun p => (c :: p.1, p.2)) <$> parseStringBodyF fuel rest := rfl
  rw [he, if_neg h1, if_neg h2]

theorem decodeEsc_quote (r : List Char) : decodeEsc ('\x22' :: r) = some ('\x22', r) := rfl

theorem decodeEsc_bslash (r : List Char) : decodeEsc ('\\' :: r) = some ('\\', r) := rfl

theorem decodeEsc_b (r : List Char) : decodeEsc ('b' :: r) = some (Char.ofNat 8, r) := rfl

theorem decodeEsc_t (r : List Char) : decodeEsc ('t' :: r) = some (Char.ofNat 9, r) := rfl

theorem decodeEsc_n (r : List Char) : decodeEsc ('n' :: r) = some (Char.ofNat 10, r) := rfl

theorem decodeEsc_f (r : List Char) : decodeEsc ('f' :: r) = some (Char.ofNat 12, r) := rfl

theorem decodeEsc_r (r : List Char) : decodeEsc ('r' :: r) = some (Char.ofNat 13, r) := rfl

theorem decodeEsc_u (r : List Char) : decodeEsc ('u' :: r) = decodeU r := rfl

theorem parse_uEsc4_bmp (n : Nat) (fuel : Nat) (suffix : List Char)
    (h9 : n < 65536) (hsur : ¬ (55296 ≤ n ∧ n ≤ 57343)) :
    parseStringBodyF (Nat.succ fuel) (uEsc4 n ++ suffix)
      = (fun p => (Char.ofNat n :: p.1, p.2)) <$> parseStringBodyF fuel suffix := by
  simp only [uEsc4, List.cons_append, List.nil_append]
  rw [parseStringBodyF_esc, decodeEsc_u, decodeU_bmp n h9 hsur]

theorem parse_uEsc4_astral (n : Nat) (fuel : Nat) (suffix : List Char)
    (hbig : 65536 ≤ n) (hlt : n < 1114112) :
    parseStringBodyF (Nat.succ fuel)
        ((uEsc4 (55296 + (n - 65536) / 1024) ++ uEsc4 (56320 + (n - 65536) % 1024)) ++ suffix)
      = (fun p => (Char.ofNat n :: p.1, p.2)) <$> parseStringBodyF fuel suffix := by
  have hcomb : 65536 + (55296 + (n - 65536) / 1024 - 55296) * 1024
      + (56320 + (n - 65536) % 1024 - 56320) = n := by omega
  simp only [uEsc4, List.cons_append, List.nil_append, List.append_assoc]
  rw [parseStringBodyF_esc, decodeEsc_u,
    decodeU_pair (55296 + (n - 65536) / 1024) (56320 + (n - 65536) % 1024)
      (by omega) (by omega) (by omega) (by omega), hcomb]

theorem parse_escapeChar (c : Char) (fuel : Nat) (suffix : List Char) :
    parseStringBodyF (Nat.succ fuel) (escapeChar c ++ suffix)
      = (fun p => (c :: p.1, p.2)) <$> parseStringBodyF fuel suffix := by
  by_cases h1 : c = '\x22'
  · subst h1
    rw [show escapeChar '\x22' = ['\\', '\x22'] from rfl]
    simp only [List.cons_append, List.nil_append]
    rw [parseStringBodyF_esc, decodeEsc_quote]
  by_cases h2 : c = '\\'
  · subst h2
    rw [show escapeChar '\\' = ['\\', '\\'] from rfl]
    simp only [List.cons_append, List.nil_append]
    rw [parseStringBodyF_esc, decodeEsc_bslash]
  by_cases h3 : c.toNat = 8
  · have hesc : escapeChar c = ['\\', 'b'] := by
      simp only [escapeChar]
      rw [if_neg h1, if_neg h2, if_pos h3]
    have hc : Char.ofNat 8 = c := by rw [← h3, Char.ofNat_toNat]
    rw [hesc]
    simp only [List.cons_append, List.nil_append]
    rw [parseStringBodyF_esc, decodeEsc_b, hc]
  by_cases h4 : c.toNat = 9
  · have hesc : escapeChar c = ['\\', 't'] := by
      simp only [escapeChar]
      rw [if_neg h1, if_neg h2, if_neg h3, if_pos h4]
    have hc : Char.ofNat 9 = c := by rw [← h4, Char.ofNat_toNat]
    rw [hesc]
    simp only [List.cons_append, List.nil_append]
    rw [parseStringBodyF_esc, decodeEsc_t, hc]
  by_cases h5 : c.toNat = 10
  · have hesc : escapeChar c = ['\\', 'n'] := by
      simp only [escapeChar]
      rw [if_neg h1, if_neg h2, if_neg h3, if_neg h4, if_pos h5]
    have hc : Char.ofNat 10 = c := by rw [← h5, Char.ofNat_toNat]
    rw [hesc]
    simp only [List.cons_append, List.nil_append]
    rw [parseStringBodyF_esc, decodeEsc_n, hc]
  by_cases h6 : c.toNat = 12
  · have hesc : escapeChar c = ['\\', 'f'] := by
      simp only [escapeChar]
      rw [if_neg h1, if_neg h2, if_neg h3, if_neg h4, if_neg h5, if_pos h6]
    have hc : Char.ofNat 12 = c := by rw [← h6, Char.ofNat_toNat]
    rw [hesc]
    simp only [List.cons_append, List.nil_append]
    rw [parseStringBodyF_esc, decodeEsc_f, hc]
  by_cases h7 : c.toNat = 13
  · have hesc : escapeChar c = ['\\', 'r'] := by
      simp only [escapeChar]
      rw [if_neg h1, if_neg h2, if_neg h3, if_neg h4, if_neg h5, if_neg h6, if_pos h7]
    have hc : Char.ofNat 13 = c := by rw [← h7, Char.ofNat_toNat]
    rw [hesc]
    simp only [List.cons_append, List.nil_append]
    rw [parseStringBodyF_esc, decodeEsc_r, hc]
  by_cases h8 : c.toNat < 32 ∨ 126 < c.toNat
  · by_cases h9 : c.toNat < 65536
    · have hesc : escapeChar c = uEsc4 c.toNat := by
        simp only [escapeChar]
        rw [if_neg h1, if_neg h2, if_neg h3, if_neg h4, if_neg h5, if_neg h6, if_neg h7,
          if_pos h8, if_pos h9]
      have hsur : ¬ (55296 ≤ c.toNat ∧ c.toNat ≤ 57343) := by
        rcases char_toNat_valid c with hv | hv <;> omega
      rw [hesc, parse_uEsc4_bmp c.toNat fuel suffix h9 hsur, Char.ofNat_toNat]
    · have hbig : 65536 ≤ c.toNat := by omega
      have hlt : c.toNat < 1114112 := by
        rcases char_toNat_valid c with hv | hv <;> omega
      have hesc : escapeChar c
          = uEsc4 (55296 + (c.toNat - 65536) / 1024)
            ++ uEsc4 (56320 + (c.toNat - 65536) % 1024) := by
        simp only [escapeChar]
        rw [if_neg h1, if_neg h2, if_neg h3, if_neg h4, if_neg h5, if_neg h6, if_neg h7,
          if_pos h8, if_neg h9]
      rw [hesc, parse_uEsc4_astral c.toNat fuel suffix hbig hlt, Char.ofNat_toNat]
  · have hesc : escapeChar c = [c] := by
      simp only [escapeChar]
      rw [if_neg h1, if_neg h2, if_neg h3, if_neg h4, if_neg h5, if_neg h6, if_neg h7,
        if_neg h8]
    rw [hesc]
    simp only [List.singleton_append]
    rw [parseStringBodyF_plain fuel c suffix h1 h2]

theorem parseStringBodyF_flat (s : List Char) :
    ∀ (fuel : Nat) (tail : List Char), s.length < fuel →
    parseStringBodyF fuel (s.flatMap escapeChar ++ '\x22' :: tail) = some (s, tail) := by
  induction s with
  | nil =>
      intro fuel tail hf
      obtain ⟨f, rfl⟩ : ∃ f, fuel = f + 1 := ⟨fuel - 1, by omega⟩
      simp only [List.flatMap_nil, List.nil_append]
      exact parseStringBodyF_quote f tail
  | cons c s ih =>
      intro fuel tail hf
      obtain ⟨f, rfl⟩ : ∃ f, fuel = f + 1 := ⟨fuel - 1, by omega⟩
      rw [List.flatMap_cons, List.append_assoc]
      rw [show f + 1 = Nat.succ f from rfl, parse_escapeChar]
      rw [ih f tail (by simp only [List.length_cons] at hf; omega)]
      rfl

theorem escapeChar_length_pos (c : Char) : 1 ≤ (escapeChar c).length := by
  simp only [escapeChar]
  split_ifs <;> simp [uEsc4]

theorem length_le_flatMap (s : List Char) : s.length ≤ (s.flatMap escapeChar).length := by
  induction s with
  | nil => simp
  | cons c s ih =>
      simp only [List.flatMap_cons, List.length_append, List.length_cons]
      have := escapeChar_length_pos c
      omega

theorem string_mk_data (s : String) : String.mk s.data = s := rfl

theorem parsePairsFuel_quote (f : Nat) (cs1 : List Char) :
    parsePairsFuel (Nat.succ f) ('\x22' :: cs1)
      = match parseStringBodyF (cs1.length + 1) cs1 with
        | some (key, cs2) => parsePairsCont (parsePairsFuel f) key cs2
        | none => none := rfl

theorem parsePairsCont_true_brace (next : List Char → Option (Store × List Char))
    (key : List Char) (cs5 : List Char) :
    parsePairsCont next key (':' :: ' ' :: 't' :: 'r' :: 'u' :: 'e' :: '\x7d' :: cs5)
      = some ([(String.mk key, true)], cs5) := rfl

theorem parsePairsCont_false_brace (next : List Char → Option (Store × List Char))
    (key : List Char) (cs5 : List Char) :
    parsePairsCont next key (':' :: ' ' :: 'f' :: 'a' :: 'l' :: 's' :: 'e' :: '\x7d' :: cs5)
      = some ([(String.mk key, false)], cs5) := rfl

theorem parsePairsCont_true_comma (next : List Char → Option (Store × List Char))
    (key : List Char) (cs5 : List Char) :
    parsePairsCont next key (':' :: ' ' :: 't' :: 'r' :: 'u' :: 'e' :: ',' :: ' ' :: cs5)
      = match next cs5 with
        | some (rest, cs6) => some ((String.mk key, true) :: rest, cs6)
        | none => none := rfl

theorem parsePairsCont_false_comma (next : List Char → Option (Store × List Char))
    (key : List Char) (cs5 : List Char) :
    parsePairsCont next key (':' :: ' ' :: 'f' :: 'a' :: 'l' :: 's' :: 'e' :: ',' :: ' ' :: cs5)
      = match next cs5 with
        | some (rest, cs6) => some ((String.mk key, false) :: rest, cs6)
        | none => none := rfl

theorem parsePairs_dump (m : Store) :
    ∀ (fuel : Nat) (tail : List Char), m ≠ [] → m.length ≤ fuel →
    parsePairsFuel fuel (dumpPairs m ++ '\x7d' :: tail) = some (m, tail) := by
  induction m with
  | nil => intro fuel tail hne _; exact absurd rfl hne
  | cons kv rest ih =>
      obtain ⟨k, v⟩ := kv
      intro fuel tail _ hlen
      obtain ⟨f, rfl⟩ : ∃ f, fuel = f + 1 :=
        ⟨fuel - 1, by simp only [List.length_cons] at hlen; omega⟩
      cases rest with
      | nil =>
          have hkey := parseStringBodyF_flat k.data
            ((k.data.flatMap escapeChar
                ++ '\x22' :: ':' :: ' ' :: (dumpBool v ++ '\x7d' :: tail)).length + 1)
            (':' :: ' ' :: (dumpBool v ++ '\x7d' :: tail))
            (by
              have := length_le_flatMap k.data
              simp only [List.length_append, List.length_cons]
              omega)
          cases v <;>
            simp only [dumpPairs, dumpStringChars, dumpBool, List.cons_append,
              List.nil_append, List.append_assoc, show f + 1 = Nat.succ f from rfl,
              parsePairsFuel_quote, hkey, parsePairsCont_true_brace,
              parsePairsCont_false_brace, string_mk_data] at *
      | cons kv2 rest2 =>
          have hne2 : kv2 :: rest2 ≠ [] := by simp
          have hlen2 : (kv2 :: rest2).length ≤ f := by
            simp only [List.length_cons] at hlen ⊢
            omega
          have hrec := ih f tail hne2 hlen2
          have hkey := parseStringBodyF_flat k.data
            ((k.data.flatMap escapeChar ++ '\x22' :: ':' :: ' '
                :: (dumpBool v ++ ',' :: ' ' :: (dumpPairs (kv2 :: rest2) ++ '\x7d' :: tail))).length + 1)
            (':' :: ' ' :: (dumpBool v ++ ',' :: ' '
                :: (dumpPairs (kv2 :: rest2) ++ '\x7d' :: tail)))
            (by
              have := length_le_flatMap k.data
              simp only [List.length_append, List.length_cons]
              omega)
          cases v <;>
            simp only [dumpPairs, dumpStringChars, dumpBool, List.cons_append,
              List.nil_append, List.append_assoc, show f + 1 = Nat.succ f from rfl,
              parsePairsFuel_quote, hkey, parsePairsCont_true_comma,
              parsePairsCont_false_comma, hrec, string_mk_data] at *

theorem dumpPairs_length (m : Store) : m.length ≤ (dumpPairs m).length := by
  induction m with
  | nil => simp [dumpPairs]
  | cons kv rest ih =>
      obtain ⟨k, v⟩ := kv
      cases rest with
      | nil =>
          simp only [dumpPairs, dumpStringChars, List.length_append, List.length_cons,
            List.length_nil]
          omega
      | cons kv2 rest2 =>
          simp only [dumpPairs, dumpStringChars, List.length_append, List.length_cons,
            List.length_nil] at ih ⊢
          omega

/-- C7: saving any store with `save_extracted_files` and loading the
resulting file contents with `load_extracted_files` returns exactly the
store that was saved: the persisted dedup store round-trips across a
process restart with full fidelity, for every mapping, including keys
needing JSON string escapes. -/
theorem C7_theorem (m : Store) :
    load_extracted_files (some (save_extracted_files m)) = some m := by
  cases m with
  | nil => rfl
  | cons kv rest =>
      obtain ⟨k, v⟩ := kv
      have hp := parsePairs_dump ((k, v) :: rest)
        ((dumpPairs ((k, v) :: rest) ++ ['\x7d']).length + 1) [] (by simp)
        (by
          have := dumpPairs_length ((k, v) :: rest)
          simp only [List.length_append]
          omega)
      cases rest with
      | nil =>
          simp only [save_extracted_files, load_extracted_files, dumpPairs, dumpStringChars,
            List.cons_append, List.nil_append, List.append_assoc] at hp ⊢
          rw [hp]
          rfl
      | cons kv2 rest2 =>
          simp only [save_extracted_files, load_extracted_files, dumpPairs, dumpStringChars,
            List.cons_append, List.nil_append, List.append_assoc] at hp ⊢
          rw [hp]
          rfl

end WatchRarr